import Mathlib

/-!
Verification of the ContextFlow context-playground core
(src/client/src/pages/ContextPlayground.tsx).

The component keeps an ordered list of message blocks, a derived token
aggregate, and a transient drag-gesture state.  The embedding below mirrors
the TypeScript source:

* `MessageBlock`, `INITIAL_BLOCKS` — the data model and initial data;
* `totalTokens`, `maxContext`, `usagePercent` — the derived aggregate
  computed on every render from `messages`;
* `jsSpliceStart`, `jsSpliceRemove`, `jsSpliceInsert`, `arrayMove` — the
  exact semantics of JS `Array.prototype.splice` index normalisation and of
  the dnd-kit `arrayMove` helper used by the reorder branch;
* `findIdxO`, `jsFindIndex` — JS `Array.prototype.findIndex` (first
  matching index, `-1` when absent);
* `handleDragStart`, `handleDragEnd` (with `insertBlockOp` and `moveOp` for
  its two mutation branches), `handleDelete`, `resetOp` — the event
  handlers;
* `Step`, `Reachable` — the induced state machine.  The fresh-id side
  condition on the drag-end step models `nanoid()` (an id distinct from all
  ids in use), and `rand < 20` models `Math.floor(Math.random() * 20)`.
-/

namespace ContextFlow

/-- Embedding of `type BlockType = user | assistant | system`. -/
inductive BlockType where
  | user
  | assistant
  | system
  deriving DecidableEq

/-- Embedding of `interface MessageBlock { id; type; content; tokens }`. -/
structure MessageBlock where
  id : String
  type : BlockType
  content : String
  tokens : Nat
  deriving DecidableEq

/-- Embedding of `INITIAL_BLOCKS`: the single fixed system block. -/
def INITIAL_BLOCKS : List MessageBlock :=
  [{ id := "system-1", type := .system,
     content := "You are a helpful AI assistant.", tokens := 7 }]

/-- Embedding of `messages.reduce((acc, msg) => acc + msg.tokens, 0)`. -/
def totalTokens (messages : List MessageBlock) : Nat :=
  messages.foldl (fun acc msg => acc + msg.tokens) 0

/-- Embedding of `const maxContext = 4096`. -/
def maxContext : Nat := 4096

/-- Embedding of `const usagePercent = (totalTokens / maxContext) * 100`
(exact rational arithmetic; the values involved are small integers divided
by a power of two, on which JS doubles are exact). -/
def usagePercent (messages : List MessageBlock) : ℚ :=
  ((totalTokens messages : ℚ) / (maxContext : ℚ)) * 100

/-- JS `Array.prototype.splice` start-index normalisation: a negative start
counts from the end (clamped at 0), a non-negative start is clamped at the
length. -/
def jsSpliceStart (len : Nat) (start : Int) : Nat :=
  if start < 0 then ((len : Int) + start).toNat else min start.toNat len

/-- JS `array.splice(start, count)`: the removed elements, and the array
left behind, as a pair. -/
def jsSpliceRemove (l : List α) (start : Int) (count : Nat) :
    List α × List α :=
  ((l.drop (jsSpliceStart l.length start)).take count,
   l.take (jsSpliceStart l.length start) ++
     l.drop (jsSpliceStart l.length start + count))

/-- JS `array.splice(start, 0, ...items)`: inserts `items` at the
normalised start index. -/
def jsSpliceInsert (l : List α) (start : Int) (items : List α) : List α :=
  l.take (jsSpliceStart l.length start) ++ items ++
    l.drop (jsSpliceStart l.length start)

/-- The dnd-kit helper `arrayMove(array, from, to)`, which is
`newArray.splice(to < 0 ? newArray.length + to : to, 0, newArray.splice(from, 1)[0])`:
the first argument of the outer splice is evaluated against the length
*before* the inner removal.  The removed sublist (of length at most 1) is
spliced back in; when the inner splice removes nothing (possible only on an
empty array for the indices `findIndex` can produce) JS would instead
insert `undefined` and the subsequent render would crash, a state this
model collapses to the empty result — theorems about reordering are
therefore stated on non-empty sequences. -/
def arrayMove (l : List α) (i j : Int) : List α :=
  jsSpliceInsert (jsSpliceRemove l i 1).2
    (if j < 0 then (l.length : Int) + j else j)
    (jsSpliceRemove l i 1).1

/-- First index satisfying `p`, if any (the content of JS `findIndex`). -/
def findIdxO (p : α → Bool) : List α → Option Nat
  | [] => none
  | a :: as => if p a then some 0 else (findIdxO p as).map (· + 1)

/-- JS `array.findIndex(p)`: first matching index, `-1` when none
matches. -/
def jsFindIndex (p : α → Bool) (l : List α) : Int :=
  match findIdxO p l with
  | some n => (n : Int)
  | none => -1

/-- The reorder branch of `handleDragEnd`:
`if (active.id !== over.id) setMessages(items => arrayMove(items, oldIndex, newIndex))`
with `oldIndex` and `newIndex` computed by `findIndex` on the ids. -/
def moveOp (items : List MessageBlock) (activeId overId : String) :
    List MessageBlock :=
  if activeId ≠ overId then
    arrayMove items
      (jsFindIndex (fun i => i.id == activeId) items)
      (jsFindIndex (fun i => i.id == overId) items)
  else items

/-- The fixed content template per kind used by the palette-drop branch. -/
def contentFor : BlockType → String
  | .user => "Can you explain quantum computing simply?"
  | .assistant => "Quantum computing uses quantum bits or qubits..."
  | .system => "You are an expert in physics."

/-- The `newBlock` built by the palette-drop branch of `handleDragEnd`:
`rand` stands for `Math.floor(Math.random() * 20)` (so `rand < 20`) and
`newId` for the value of `nanoid()`. -/
def mkBlock (newId : String) (type : BlockType) (rand : Nat) : MessageBlock :=
  { id := newId, type := type, content := contentFor type,
    tokens := rand + 5 }

/-- The palette-drop branch: `setMessages(items => [...items, newBlock])`. -/
def insertBlockOp (items : List MessageBlock) (newId : String)
    (type : BlockType) (rand : Nat) : List MessageBlock :=
  items ++ [mkBlock newId type rand]

/-- Embedding of `handleDelete(id)`:
`setMessages(messages.filter(m => m.id !== id))`. -/
def deleteOp (items : List MessageBlock) (id : String) : List MessageBlock :=
  items.filter fun m => m.id != id

/-- The component state: `messages`, `activeId`, `draggedType`. -/
structure State where
  messages : List MessageBlock
  activeId : Option String
  draggedType : Option BlockType
  deriving DecidableEq

/-- Initial hook values: `useState(INITIAL_BLOCKS)` and two `useState(null)`
cells. -/
def initialState : State :=
  { messages := INITIAL_BLOCKS, activeId := none, draggedType := none }

/-- A `DragStartEvent` as consumed by `handleDragStart`: the active id and
the `data.current` carried by the draggable (`isSource`, `type`). -/
structure DragStartEvent where
  activeId : String
  isSource : Bool
  sourceType : BlockType

/-- A `DragEndEvent` as consumed by `handleDragEnd`: `overId = none` models
`over === null`. -/
structure DragEndEvent where
  activeId : String
  isSource : Bool
  sourceType : BlockType
  overId : Option String

/-- Embedding of `handleDragStart`: records the active id; records
`draggedType` only for palette sources. -/
def handleDragStart (ev : DragStartEvent) (st : State) : State :=
  if ev.isSource then
    { st with activeId := some ev.activeId,
              draggedType := some ev.sourceType }
  else
    { st with activeId := some ev.activeId }

/-- Embedding of `handleDragEnd`: always clears `activeId` and
`draggedType` first; returns unchanged on `!over`; appends a fresh block
for palette sources; otherwise runs the reorder branch. -/
def handleDragEnd (ev : DragEndEvent) (newId : String) (rand : Nat)
    (st : State) : State :=
  match ev.overId with
  | none =>
      { st with activeId := none, draggedType := none }
  | some overId =>
      if ev.isSource then
        { messages := insertBlockOp st.messages newId ev.sourceType rand,
          activeId := none, draggedType := none }
      else
        { messages := moveOp st.messages ev.activeId overId,
          activeId := none, draggedType := none }

/-- Embedding of `handleDelete` lifted to the component state. -/
def handleDelete (id : String) (st : State) : State :=
  { st with messages := deleteOp st.messages id }

/-- The Reset button: `setMessages(INITIAL_BLOCKS)`. -/
def resetOp (st : State) : State :=
  { st with messages := INITIAL_BLOCKS }

/-- One user event processed by the component.  The side condition on the
drag-end step models the environment: `nanoid()` yields an id distinct from
every id in use, and `Math.floor(Math.random() * 20) < 20`. -/
inductive Step : State → State → Prop
  | dragStart (st : State) (ev : DragStartEvent) :
      Step st (handleDragStart ev st)
  | dragEnd (st : State) (ev : DragEndEvent) (newId : String) (rand : Nat)
      (hfresh : ev.isSource = true → newId ∉ st.messages.map MessageBlock.id)
      (hrand : rand < 20) :
      Step st (handleDragEnd ev newId rand st)
  | delete (st : State) (id : String) : Step st (handleDelete id st)
  | reset (st : State) : Step st (resetOp st)

/-- States reachable from the initial state by user events. -/
inductive Reachable : State → Prop
  | init : Reachable initialState
  | step {st st' : State} : Reachable st → Step st st' → Reachable st'

/-! ### Helper lemmas -/

/-- Folding the token sum from any starting accumulator. -/
theorem foldl_tokens (l : List MessageBlock) (a : Nat) :
    l.foldl (fun acc msg => acc + msg.tokens) a
      = a + (l.map MessageBlock.tokens).sum := by
  induction l generalizing a with
  | nil => simp
  | cons x xs ih => simp [ih, Nat.add_assoc]

/-- The running reduce of the source equals the mapped sum. -/
theorem totalTokens_eq_sum (l : List MessageBlock) :
    totalTokens l = (l.map MessageBlock.tokens).sum := by
  simpa using foldl_tokens l 0

/-- Permutations preserve the token total. -/
theorem totalTokens_perm {l l' : List MessageBlock} (h : l.Perm l') :
    totalTokens l = totalTokens l' := by
  rw [totalTokens_eq_sum, totalTokens_eq_sum]
  exact (h.map MessageBlock.tokens).sum_eq

/-- Splitting a list at `s` into prefix, the (at most one) element at `s`,
and the tail past `s`. -/
theorem take_takeOne_drop (l : List α) (s : Nat) :
    l.take s ++ ((l.drop s).take 1 ++ l.drop (s + 1)) = l := by
  have h2 : (l.drop s).drop 1 = l.drop (s + 1) := by
    rw [List.drop_drop]
  calc l.take s ++ ((l.drop s).take 1 ++ l.drop (s + 1))
      = l.take s ++ ((l.drop s).take 1 ++ (l.drop s).drop 1) := by rw [h2]
    _ = l.take s ++ l.drop s := by rw [List.take_append_drop]
    _ = l := List.take_append_drop s l

/-- The two components of a one-element splice removal, concatenated
(removed part first), permute the original list. -/
theorem spliceRemove_perm (l : List α) (start : Int) :
    ((jsSpliceRemove l start 1).1 ++ (jsSpliceRemove l start 1).2).Perm l := by
  unfold jsSpliceRemove
  refine (List.perm_append_comm_assoc _ _ _).trans ?_
  rw [take_takeOne_drop]

/-- Whatever its index arguments, `arrayMove` permutes its input. -/
theorem arrayMove_perm (l : List α) (i j : Int) :
    (arrayMove l i j).Perm l := by
  unfold arrayMove jsSpliceInsert
  rw [List.append_assoc]
  refine (List.perm_append_comm_assoc _ _ _).trans ?_
  rw [List.take_append_drop]
  exact spliceRemove_perm l i

/-- The reorder branch always permutes the sequence. -/
theorem moveOp_perm (items : List MessageBlock) (a o : String) :
    (moveOp items a o).Perm items := by
  unfold moveOp
  split
  · exact arrayMove_perm _ _ _
  · exact List.Perm.refl _

/-- A miss of `findIdxO` on lists where no element satisfies the
predicate. -/
theorem findIdxO_eq_none {p : α → Bool} {l : List α}
    (h : ∀ a ∈ l, p a = false) : findIdxO p l = none := by
  induction l with
  | nil => rfl
  | cons x xs ih =>
      have hx := h x (by simp)
      simp [findIdxO, hx, ih fun a ha => h a (by simp [ha])]

/-- A hit of `findIdxO` points at an element satisfying the predicate. -/
theorem findIdxO_eq_some {p : α → Bool} :
    ∀ {l : List α} {i : Nat}, findIdxO p l = some i →
      ∃ b, l[i]? = some b ∧ p b = true := by
  intro l
  induction l with
  | nil => intro i h; simp [findIdxO] at h
  | cons x xs ih =>
      intro i h
      by_cases hx : p x
      · simp [findIdxO, hx] at h
        exact h ▸ ⟨x, by simp, hx⟩
      · simp [findIdxO, hx] at h
        obtain ⟨i', hi', rfl⟩ := h
        obtain ⟨b, hb, hpb⟩ := ih hi'
        exact ⟨b, by simpa using hb, hpb⟩

/-- Bound extracted from a hit of `findIdxO`. -/
theorem findIdxO_lt_length {p : α → Bool} {l : List α} {i : Nat}
    (h : findIdxO p l = some i) : i < l.length := by
  obtain ⟨b, hb, -⟩ := findIdxO_eq_some h
  exact (List.getElem?_eq_some.mp hb).1

/-- Within bounds, `insertIdx` is take-cons-drop. -/
theorem insertIdx_eq_take_cons_drop :
    ∀ (l : List α) (n : Nat) (a : α), n ≤ l.length →
      l.insertIdx n a = l.take n ++ a :: l.drop n
  | _, 0, _, _ => by simp
  | [], n + 1, _, h => by simp at h
  | x :: xs, n + 1, a, h => by
      simp only [List.insertIdx_succ_cons, List.take_succ_cons,
        List.drop_succ_cons, List.cons_append, List.cons.injEq, true_and]
      exact insertIdx_eq_take_cons_drop xs n a (by simpa using h)

/-- At two in-range indices, `arrayMove` erases the element at `i` and
reinserts it at position `j` (computed against the original array). -/
theorem arrayMove_natCast (l : List α) (i j : Nat)
    (hi : i < l.length) (hj : j < l.length) :
    arrayMove l (i : Int) (j : Int) = (l.eraseIdx i).insertIdx j l[i] := by
  have hstarti : jsSpliceStart l.length (i : Int) = i := by
    unfold jsSpliceStart
    rw [if_neg (by omega : ¬(i : Int) < 0), Int.toNat_natCast]
    exact Nat.min_eq_left (by omega)
  have hrem1 : (jsSpliceRemove l (i : Int) 1).1 = [l[i]] := by
    show (l.drop (jsSpliceStart l.length (i : Int))).take 1 = _
    rw [hstarti, List.drop_eq_getElem_cons hi, List.take_succ_cons,
      List.take_zero]
  have hrem2 : (jsSpliceRemove l (i : Int) 1).2 = l.eraseIdx i := by
    show l.take (jsSpliceStart l.length (i : Int)) ++
      l.drop (jsSpliceStart l.length (i : Int) + 1) = _
    rw [hstarti, List.eraseIdx_eq_take_drop_succ]
  have hlen2 : (l.eraseIdx i).length = l.length - 1 := by
    rw [List.length_eraseIdx]
    simp [hi]
  have hstartj :
      jsSpliceStart (jsSpliceRemove l (i : Int) 1).2.length (j : Int) = j := by
    rw [hrem2, hlen2]
    unfold jsSpliceStart
    rw [if_neg (by omega : ¬(j : Int) < 0), Int.toNat_natCast]
    exact Nat.min_eq_left (by omega)
  unfold arrayMove
  rw [if_neg (by omega : ¬(j : Int) < 0)]
  unfold jsSpliceInsert
  rw [hstartj, hrem1, hrem2,
    insertIdx_eq_take_cons_drop _ j _ (by omega)]
  simp

/-- With both indices `-1` (as produced by two missed `findIndex` calls) on
a non-empty array, `arrayMove` removes the last element and appends it
again: the array is unchanged. -/
theorem arrayMove_neg_one_neg_one (l : List α) (hne : l ≠ []) :
    arrayMove l (-1) (-1) = l := by
  have hlen : 1 ≤ l.length := List.length_pos.mpr hne
  have hstart : jsSpliceStart l.length (-1) = l.length - 1 := by
    unfold jsSpliceStart
    rw [if_pos (by omega : (-1 : Int) < 0)]
    omega
  have hrem2 : (jsSpliceRemove l (-1) 1).2 = l.take (l.length - 1) := by
    show l.take (jsSpliceStart l.length (-1)) ++
      l.drop (jsSpliceStart l.length (-1) + 1) = _
    rw [hstart, show l.length - 1 + 1 = l.length from by omega,
      List.drop_length, List.append_nil]
  have hrem1 : (jsSpliceRemove l (-1) 1).1
      = (l.drop (l.length - 1)).take 1 := by
    show (l.drop (jsSpliceStart l.length (-1))).take 1 = _
    rw [hstart]
  have hstart2 :
      jsSpliceStart (jsSpliceRemove l (-1) 1).2.length
        ((l.length : Int) + (-1)) = l.length - 1 := by
    rw [hrem2, List.length_take, Nat.min_eq_left (by omega)]
    unfold jsSpliceStart
    rw [if_neg (by omega : ¬(l.length : Int) + (-1) < 0)]
    rw [show ((l.length : Int) + (-1)).toNat = l.length - 1 from by omega]
    exact Nat.min_eq_left (by omega)
  unfold arrayMove
  rw [if_pos (by omega : (-1 : Int) < 0)]
  unfold jsSpliceInsert
  rw [hstart2, hrem1, hrem2]
  rw [List.take_take, min_self]
  rw [show (l.take (l.length - 1)).drop (l.length - 1) = []
    from List.drop_eq_nil_of_le (by simp)]
  rw [List.append_nil]
  conv_rhs => rw [← take_takeOne_drop l (l.length - 1)]
  rw [show l.length - 1 + 1 = l.length from by omega, List.drop_length,
    List.append_nil]

/-- An id that labels no block makes `findIndex` on the ids return `-1`. -/
theorem jsFindIndex_id_absent {items : List MessageBlock} {u : String}
    (hu : u ∉ items.map MessageBlock.id) :
    jsFindIndex (fun b => b.id == u) items = -1 := by
  unfold jsFindIndex
  rw [findIdxO_eq_none]
  intro b hb
  simp only [beq_eq_false_iff_ne, ne_eq]
  intro h
  exact hu (h ▸ List.mem_map_of_mem MessageBlock.id hb)

/-- The reorder branch with two absent ids on a non-empty sequence is the
identity (both indices are `-1`: the last element is removed and appended
again). -/
theorem moveOp_absent_absent {items : List MessageBlock} {u v : String}
    (hne : items ≠ []) (hu : u ∉ items.map MessageBlock.id)
    (hv : v ∉ items.map MessageBlock.id) :
    moveOp items u v = items := by
  unfold moveOp
  split
  · rw [jsFindIndex_id_absent hu, jsFindIndex_id_absent hv]
    exact arrayMove_neg_one_neg_one items hne
  · rfl

/-- Deleting an absent id filters nothing out. -/
theorem deleteOp_absent {items : List MessageBlock} {u : String}
    (hu : u ∉ items.map MessageBlock.id) : deleteOp items u = items := by
  unfold deleteOp
  rw [List.filter_eq_self]
  intro m hm
  simp only [bne_iff_ne, ne_eq]
  intro h
  exact hu (h ▸ List.mem_map_of_mem MessageBlock.id hm)

/-- Drag-start never touches the sequence. -/
theorem handleDragStart_messages (ev : DragStartEvent) (st : State) :
    (handleDragStart ev st).messages = st.messages := by
  unfold handleDragStart
  split <;> rfl

/-- Case analysis of the sequence after a drag-end: unchanged, appended to
by the palette branch, or rewritten by the reorder branch. -/
theorem handleDragEnd_messages (ev : DragEndEvent) (newId : String)
    (rand : Nat) (st : State) :
    (handleDragEnd ev newId rand st).messages = st.messages
    ∨ (ev.isSource = true ∧ (handleDragEnd ev newId rand st).messages
        = insertBlockOp st.messages newId ev.sourceType rand)
    ∨ (∃ o, ev.overId = some o ∧ ev.isSource = false ∧
        (handleDragEnd ev newId rand st).messages
          = moveOp st.messages ev.activeId o) := by
  obtain ⟨eaid, esrc, ety, eover⟩ := ev
  cases eover with
  | none => exact Or.inl rfl
  | some o =>
      cases esrc with
      | true => exact Or.inr (Or.inl ⟨rfl, rfl⟩)
      | false => exact Or.inr (Or.inr ⟨o, rfl, rfl, rfl⟩)

/-- Drag-end always clears the gesture state. -/
theorem handleDragEnd_clears (ev : DragEndEvent) (newId : String)
    (rand : Nat) (st : State) :
    (handleDragEnd ev newId rand st).activeId = none
    ∧ (handleDragEnd ev newId rand st).draggedType = none := by
  obtain ⟨eaid, esrc, ety, eover⟩ := ev
  cases eover with
  | none => exact ⟨rfl, rfl⟩
  | some o => cases esrc with
      | true => exact ⟨rfl, rfl⟩
      | false => exact ⟨rfl, rfl⟩

/-- Concrete blocks used as witnesses and counterexamples. -/
def blkA : MessageBlock :=
  { id := "a", type := .user, content := "alpha", tokens := 3 }

/-- Second concrete block. -/
def blkB : MessageBlock :=
  { id := "b", type := .assistant, content := "beta", tokens := 4 }

/-- The state with no blocks at all. -/
def emptyState : State :=
  { messages := [], activeId := none, draggedType := none }

/-! ### Claim theorems -/

/-- Claim C1, counterexample: with blocks of ids [a, b] and the absent id
ghost, the reorder branch with ghost as source and a as target rearranges
the sequence to [b, a] instead of leaving it unchanged (JS `findIndex`
returns `-1` for ghost, and `arrayMove` with source index `-1` moves the
*last* element to the target position). -/
theorem c1_move_absent_counterexample :
    ("ghost" ∉ [blkA, blkB].map MessageBlock.id)
    ∧ moveOp [blkA, blkB] "ghost" "a" = [blkB, blkA]
    ∧ moveOp [blkA, blkB] "ghost" "a" ≠ [blkA, blkB]
    ∧ moveOp [blkA, blkB] "a" "ghost" = [blkB, blkA]
    ∧ moveOp [blkA, blkB] "a" "ghost" ≠ [blkA, blkB] := by decide

/-- Claim C1, amended: for an id `u` absent from the sequence, `remove(u)`
is a silent no-op, and the reorder branch never throws: with `u` absent as
source or as target it always yields a permutation of the sequence (on a
non-empty sequence), and it leaves the sequence exactly unchanged when the
*other* id is absent as well — but with exactly one absent id it may
reorder, as the counterexample shows. -/
theorem c1_move_remove_absent_amended (items : List MessageBlock)
    (u v : String) (hu : u ∉ items.map MessageBlock.id) :
    deleteOp items u = items
    ∧ (items ≠ [] → (moveOp items u v).Perm items
        ∧ (moveOp items v u).Perm items)
    ∧ (items ≠ [] → v ∉ items.map MessageBlock.id →
        moveOp items u v = items ∧ moveOp items v u = items) := by
  refine ⟨deleteOp_absent hu,
    fun _ => ⟨moveOp_perm _ _ _, moveOp_perm _ _ _⟩, ?_⟩
  intro hne hv
  exact ⟨moveOp_absent_absent hne hu hv, moveOp_absent_absent hne hv hu⟩

/-- Witness for the amended claim C1 at a concrete one-block sequence and
two absent ids. -/
theorem c1_move_remove_absent_amended_witness :
    deleteOp [blkA] "ghost" = [blkA]
    ∧ ([blkA] ≠ [] → (moveOp [blkA] "ghost" "ghost2").Perm [blkA]
        ∧ (moveOp [blkA] "ghost2" "ghost").Perm [blkA])
    ∧ ([blkA] ≠ [] → "ghost2" ∉ [blkA].map MessageBlock.id →
        moveOp [blkA] "ghost" "ghost2" = [blkA]
        ∧ moveOp [blkA] "ghost2" "ghost" = [blkA]) :=
  c1_move_remove_absent_amended [blkA] "ghost" "ghost2" (by decide)

/-- Claim C2: in every reachable state the derived aggregate satisfies
totalTokens = sum of the token costs of the blocks in the sequence, and the
rendered percentage is the usage ratio totalTokens / 4096 (capacity the
fixed constant 4096) scaled by 100; the aggregate is a pure function
recomputed from the sequence, never incrementally patched. -/
theorem c2_aggregate_consistency (st : State) (h : Reachable st) :
    totalTokens st.messages = (st.messages.map MessageBlock.tokens).sum
    ∧ usagePercent st.messages
        = ((totalTokens st.messages : ℚ) / 4096) * 100 := by
  refine ⟨totalTokens_eq_sum st.messages, ?_⟩
  unfold usagePercent maxContext
  norm_num

/-- Witness for claim C2 at the initial state. -/
theorem c2_aggregate_consistency_witness :
    totalTokens initialState.messages
        = (initialState.messages.map MessageBlock.tokens).sum
    ∧ usagePercent initialState.messages
        = ((totalTokens initialState.messages : ℚ) / 4096) * 100 :=
  c2_aggregate_consistency initialState Reachable.init

/-- Claim C3: when source id `s` sits at index `i` and target id `t` at
index `j` (both found by `findIndex`) with `s ≠ t`, the reorder branch
erases the source block and reinserts it at the index the target occupied
before the removal (a stable array move, not a swap): the moved block ends
up at index `j`, and the multiset of blocks — hence the token total — is
unchanged. -/
theorem c3_move_present_stable (items : List MessageBlock) (s t : String)
    (i j : Nat) (hilt : i < items.length) (hjlt : j < items.length)
    (hi : findIdxO (fun b => b.id == s) items = some i)
    (hj : findIdxO (fun b => b.id == t) items = some j)
    (hst : s ≠ t) :
    moveOp items s t = (items.eraseIdx i).insertIdx j items[i]
    ∧ (moveOp items s t)[j]? = some items[i]
    ∧ (moveOp items s t).Perm items
    ∧ totalTokens (moveOp items s t) = totalTokens items := by
  have hfi : jsFindIndex (fun b => b.id == s) items = (i : Int) := by
    unfold jsFindIndex
    rw [hi]
  have hfj : jsFindIndex (fun b => b.id == t) items = (j : Int) := by
    unfold jsFindIndex
    rw [hj]
  have hmv : moveOp items s t = arrayMove items (i : Int) (j : Int) := by
    unfold moveOp
    rw [if_pos hst, hfi, hfj]
  have hmain := arrayMove_natCast items i j hilt hjlt
  have hperm : (moveOp items s t).Perm items := by
    rw [hmv]
    exact arrayMove_perm _ _ _
  refine ⟨by rw [hmv, hmain], ?_, hperm, totalTokens_perm hperm⟩
  rw [hmv, hmain]
  have hjle : j ≤ (items.eraseIdx i).length := by
    rw [List.length_eraseIdx]
    simp only [hilt, if_pos]
    omega
  rw [insertIdx_eq_take_cons_drop _ j _ hjle]
  have htk : ((items.eraseIdx i).take j).length = j := by
    rw [List.length_take]
    exact Nat.min_eq_left hjle
  rw [List.getElem?_append_right htk.le]
  simp [htk]

/-- Witness for claim C3: moving block b onto block a in [a, b] yields
[b, a], with b landing at index 0. -/
theorem c3_move_present_stable_witness :
    moveOp [blkA, blkB] "b" "a"
        = (([blkA, blkB].eraseIdx 1).insertIdx 0 ([blkA, blkB])[1])
    ∧ (moveOp [blkA, blkB] "b" "a")[0]? = some ([blkA, blkB])[1]
    ∧ (moveOp [blkA, blkB] "b" "a").Perm [blkA, blkB]
    ∧ totalTokens (moveOp [blkA, blkB] "b" "a")
        = totalTokens [blkA, blkB] :=
  c3_move_present_stable [blkA, blkB] "b" "a" 1 0 (by decide) (by decide)
    (by decide) (by decide) (by decide)

/-- Claim C4: a palette-origin drop over any valid target appends exactly
one new block at the end of the sequence (never mid-sequence): the length
grows by one, the new block is last, its content is the fixed template for
its kind, its token cost lies in 5..24, and every pre-existing block keeps
its position and fields. -/
theorem c4_insert_appends (st : State) (ev : DragEndEvent) (newId : String)
    (rand : Nat) (o : String) (hsrc : ev.isSource = true)
    (hover : ev.overId = some o) (hrand : rand < 20) :
    (handleDragEnd ev newId rand st).messages
        = st.messages ++ [mkBlock newId ev.sourceType rand]
    ∧ (handleDragEnd ev newId rand st).messages.length
        = st.messages.length + 1
    ∧ (handleDragEnd ev newId rand st).messages.getLast?
        = some (mkBlock newId ev.sourceType rand)
    ∧ (mkBlock newId ev.sourceType rand).content = contentFor ev.sourceType
    ∧ 5 ≤ (mkBlock newId ev.sourceType rand).tokens
    ∧ (mkBlock newId ev.sourceType rand).tokens ≤ 24
    ∧ ∀ k, k < st.messages.length →
        (handleDragEnd ev newId rand st).messages[k]? = st.messages[k]? := by
  have hmsg : (handleDragEnd ev newId rand st).messages
      = st.messages ++ [mkBlock newId ev.sourceType rand] := by
    obtain ⟨eaid, esrc, ety, eover⟩ := ev
    cases hover
    cases hsrc
    rfl
  refine ⟨hmsg, ?_, ?_, rfl, ?_, ?_, ?_⟩
  · rw [hmsg]
    simp
  · rw [hmsg]
    simp
  · simp [mkBlock]
  · simp only [mkBlock]
    omega
  · intro k hk
    rw [hmsg, List.getElem?_append_left hk]

/-- Witness for claim C4: dropping the user template on the initial
state. -/
theorem c4_insert_appends_witness :
    (handleDragEnd ⟨"source-user", true, .user, some "system-1"⟩ "n1" 0
        initialState).messages
      = initialState.messages ++ [mkBlock "n1" .user 0]
    ∧ (handleDragEnd ⟨"source-user", true, .user, some "system-1"⟩ "n1" 0
        initialState).messages.length = initialState.messages.length + 1
    ∧ (handleDragEnd ⟨"source-user", true, .user, some "system-1"⟩ "n1" 0
        initialState).messages.getLast? = some (mkBlock "n1" .user 0)
    ∧ (mkBlock "n1" BlockType.user 0).content = contentFor .user
    ∧ 5 ≤ (mkBlock "n1" BlockType.user 0).tokens
    ∧ (mkBlock "n1" BlockType.user 0).tokens ≤ 24
    ∧ ∀ k, k < initialState.messages.length →
        (handleDragEnd ⟨"source-user", true, .user, some "system-1"⟩ "n1" 0
          initialState).messages[k]? = initialState.messages[k]? :=
  c4_insert_appends initialState ⟨"source-user", true, .user, some "system-1"⟩
    "n1" 0 "system-1" rfl rfl (by decide)

/-- Claim C5: in every state reachable from the initial state by any
sequence of operations, no two blocks of the sequence share an id. -/
theorem c5_ids_nodup (st : State) (h : Reachable st) :
    (st.messages.map MessageBlock.id).Nodup := by
  induction h with
  | init => decide
  | @step st' st'' hr hstep ih =>
      cases hstep with
      | dragStart ev =>
          rw [handleDragStart_messages]
          exact ih
      | dragEnd ev newId rand hfresh hrand =>
          rcases handleDragEnd_messages ev newId rand st' with
            hsame | ⟨hsrc, hins⟩ | ⟨o, hov, hsrc, hmv⟩
          · rw [hsame]
            exact ih
          · rw [hins]
            unfold insertBlockOp
            rw [List.map_append]
            simp only [List.map_cons, List.map_nil]
            rw [List.nodup_append]
            refine ⟨ih, List.nodup_singleton _, ?_⟩
            intro a ha hb
            simp only [List.mem_singleton] at hb
            have hb' : a = newId := hb
            exact (hfresh hsrc) (hb' ▸ ha)
          · rw [hmv]
            exact ((moveOp_perm st'.messages ev.activeId o).map
              MessageBlock.id).nodup_iff.mpr ih
      | delete id =>
          exact ih.sublist ((List.filter_sublist _).map MessageBlock.id)
      | reset =>
          show ((INITIAL_BLOCKS).map MessageBlock.id).Nodup
          decide

/-- Witness for claim C5 at the initial state. -/
theorem c5_ids_nodup_witness :
    (initialState.messages.map MessageBlock.id).Nodup :=
  c5_ids_nodup initialState Reachable.init

/-- Claim C6: a drag-end whose source id equals its target id leaves the
sequence unchanged — same blocks, same order. -/
theorem c6_move_self_noop (st : State) (ev : DragEndEvent) (newId : String)
    (rand : Nat) (hsrc : ev.isSource = false)
    (hself : ev.overId = some ev.activeId) :
    (handleDragEnd ev newId rand st).messages = st.messages := by
  obtain ⟨eaid, esrc, ety, eover⟩ := ev
  simp only at hsrc hself
  cases hself
  cases hsrc
  show moveOp st.messages eaid eaid = st.messages
  unfold moveOp
  simp

/-- Witness for claim C6: dropping block a on itself. -/
theorem c6_move_self_noop_witness :
    (handleDragEnd ⟨"a", false, .user, some "a"⟩ "n1" 0
        { messages := [blkA, blkB], activeId := some "a",
          draggedType := none }).messages = [blkA, blkB] :=
  c6_move_self_noop
    { messages := [blkA, blkB], activeId := some "a", draggedType := none }
    ⟨"a", false, .user, some "a"⟩ "n1" 0 rfl rfl

/-- Claim C7: a drag-start followed by a drag-end with no drop target
leaves the sequence and both derived aggregates exactly unchanged, and
every drag-end — mutating or not — clears the gesture state (activeId and
draggedType) back to Idle. -/
theorem c7_cancellation_purity (st : State) (ev1 : DragStartEvent)
    (ev2 : DragEndEvent) (newId : String) (rand : Nat)
    (hcancel : ev2.overId = none) :
    (handleDragEnd ev2 newId rand (handleDragStart ev1 st)).messages
        = st.messages
    ∧ totalTokens (handleDragEnd ev2 newId rand
        (handleDragStart ev1 st)).messages = totalTokens st.messages
    ∧ usagePercent (handleDragEnd ev2 newId rand
        (handleDragStart ev1 st)).messages = usagePercent st.messages
    ∧ ∀ (st' : State) (ev : DragEndEvent) (n : String) (r : Nat),
        (handleDragEnd ev n r st').activeId = none
        ∧ (handleDragEnd ev n r st').draggedType = none := by
  have hmsg : (handleDragEnd ev2 newId rand
      (handleDragStart ev1 st)).messages = st.messages := by
    obtain ⟨eaid, esrc, ety, eover⟩ := ev2
    simp only at hcancel
    cases hcancel
    rw [show (handleDragEnd ⟨eaid, esrc, ety, none⟩ newId rand
      (handleDragStart ev1 st)).messages
        = (handleDragStart ev1 st).messages from rfl]
    exact handleDragStart_messages ev1 st
  exact ⟨hmsg, by rw [hmsg], by rw [hmsg],
    fun st' ev n r => handleDragEnd_clears ev n r st'⟩

/-- Witness for claim C7 at the initial state with a cancelled palette
drag. -/
theorem c7_cancellation_purity_witness :
    (handleDragEnd ⟨"source-user", true, .user, none⟩ "n1" 0
        (handleDragStart ⟨"source-user", true, .user⟩ initialState)).messages
      = initialState.messages
    ∧ totalTokens (handleDragEnd ⟨"source-user", true, .user, none⟩ "n1" 0
        (handleDragStart ⟨"source-user", true, .user⟩ initialState)).messages
      = totalTokens initialState.messages
    ∧ usagePercent (handleDragEnd ⟨"source-user", true, .user, none⟩ "n1" 0
        (handleDragStart ⟨"source-user", true, .user⟩ initialState)).messages
      = usagePercent initialState.messages
    ∧ ∀ (st' : State) (ev : DragEndEvent) (n : String) (r : Nat),
        (handleDragEnd ev n r st').activeId = none
        ∧ (handleDragEnd ev n r st').draggedType = none :=
  c7_cancellation_purity initialState ⟨"source-user", true, .user⟩
    ⟨"source-user", true, .user, none⟩ "n1" 0 rfl

/-- Claim C8: reset replaces any prior sequence by the single fixed initial
system block (id system-1, kind system, the fixed content, 7 tokens), and
the aggregate then equals 7. -/
theorem c8_reset_deterministic (st : State) :
    (resetOp st).messages = INITIAL_BLOCKS
    ∧ (resetOp st).messages.length = 1
    ∧ (resetOp st).messages
        = [{ id := "system-1", type := .system,
             content := "You are a helpful AI assistant.", tokens := 7 }]
    ∧ totalTokens (resetOp st).messages = 7 :=
  ⟨rfl, rfl, rfl, rfl⟩

/-- Claim C9: on any non-empty sequence the reorder branch produces a
permutation of the input whatever the two ids are (present or absent), so
the multiset of blocks and the token total are preserved. -/
theorem c9_reorder_perm (items : List MessageBlock) (a o : String)
    (hne : items ≠ []) :
    (moveOp items a o).Perm items
    ∧ totalTokens (moveOp items a o) = totalTokens items :=
  ⟨moveOp_perm items a o, totalTokens_perm (moveOp_perm items a o)⟩

/-- Witness for claim C9 with one absent and one present id. -/
theorem c9_reorder_perm_witness :
    (moveOp [blkA, blkB] "ghost" "b").Perm [blkA, blkB]
    ∧ totalTokens (moveOp [blkA, blkB] "ghost" "b")
        = totalTokens [blkA, blkB] :=
  c9_reorder_perm [blkA, blkB] "ghost" "b" (by decide)

/-- Claim C10: the empty sequence is reachable (deleting the initial system
block), totalTokens evaluates to 0 on it, and a palette insert on the
empty sequence appends the new block as the sole element. -/
theorem c10_empty_reachable :
    Reachable emptyState
    ∧ totalTokens [] = 0
    ∧ ∀ (st : State) (ev : DragEndEvent) (newId : String) (rand : Nat)
        (o : String), st.messages = [] → ev.isSource = true →
        ev.overId = some o →
        (handleDragEnd ev newId rand st).messages
          = [mkBlock newId ev.sourceType rand] := by
  refine ⟨?_, rfl, ?_⟩
  · have h := Reachable.step Reachable.init
      (Step.delete initialState "system-1")
    have heq : handleDelete "system-1" initialState = emptyState := by
      decide
    rwa [heq] at h
  · intro st ev newId rand o hmsg hsrc hover
    obtain ⟨eaid, esrc, ety, eover⟩ := ev
    simp only at hsrc hover
    cases hover
    cases hsrc
    show insertBlockOp st.messages newId ety rand = _
    rw [hmsg]
    rfl

end ContextFlow
